import Mathlib

/-
  Shallow embedding of the kvraft server (src/src/kvraft/server.go) of
  FinalTheory/raft: the state-machine and request-coordination layer of a
  replicated key/value service.

  Modelling conventions:
  - Go maps become association lists with unique keys maintained by `setk`;
    a Go map read `m[k]` (which yields the zero value on a missing key)
    becomes `lookupS` (default empty string) or `lookupk` returning Option.
  - Go channels carry no data flow inside the functions modelled here; a
    send on a channel is recorded as an emitted event (the channel's
    identifier) in the function's result, and the nil-ness of the
    `ToClientCh` reference is an `Option Nat`.
  - int64 ClientId and int32 SeqNumber become Int (only equality and order
    are used by this code, never arithmetic, so wrap-around cannot arise).
  - The `Err` string constants and the `GetOp`/`PutOp`/`AppendOp` string
    constants live in common.go, which is not part of the given sources;
    they are opaque tags here, modelled as the spec lists them (section 6.2).
-/

namespace KVRaft

/-- Association-list lookup with decidable key equality; models a Go map
read returning (value, ok). -/
def lookupk {α β : Type} [DecidableEq α] (k : α) : List (α × β) → Option β
  | [] => none
  | (k', v) :: rest => if k = k' then some v else lookupk k rest

/-- A Go map read of a string-valued map: missing keys yield the zero
value, the empty string. -/
def lookupS {α : Type} [DecidableEq α] (k : α) (m : List (α × String)) : String :=
  match lookupk k m with
  | some v => v
  | none => ""

/-- Association-list update, models `m[k] = v`: replaces the binding if the
key is present, appends it otherwise. -/
def setk {α β : Type} [DecidableEq α] (k : α) (v : β) : List (α × β) → List (α × β)
  | [] => [(k, v)]
  | (k', v') :: rest => if k = k' then (k, v) :: rest else (k', v') :: setk k v rest

/-- Association-list removal, models Go `delete(m, k)`. -/
def erasek {α β : Type} [DecidableEq α] (k : α) : List (α × β) → List (α × β)
  | [] => []
  | (k', v') :: rest => if k = k' then erasek k rest else (k', v') :: erasek k rest

/-- The operation kind carried in the `Op` field of a command; the string
constants GetOp, PutOp, AppendOp of common.go. -/
inductive OpKind : Type
  | GetOp : OpKind
  | PutOp : OpKind
  | AppendOp : OpKind
deriving DecidableEq

/-- The `Err` result constants of common.go, as listed in spec section 6.2. -/
inductive Err : Type
  | OK : Err
  | ErrWrongLeader : Err
  | ErrLostLeadership : Err
  | ErrTimeOut : Err
  | ErrStaleRequest : Err
  | ErrNoKey : Err
deriving DecidableEq

/-- struct RequestId: (ClientId, SeqNumber). -/
structure RequestId : Type where
  ClientId : Int
  SeqNumber : Int
deriving DecidableEq

/-- struct Op, the command submitted to the raft log. The Go field `Op`
(string) is the kind; `ToClientCh` is the completion-channel reference,
`none` standing for a nil channel (for example after a restart replay). -/
structure Op : Type where
  Key : String
  Value : String
  Kind : OpKind
  ToClientCh : Option Nat
  From : Nat
  ClientId : Int
  SeqNumber : Int
deriving DecidableEq

/-- func (op *Op) RequestId(). -/
def Op.requestId (op : Op) : RequestId :=
  { ClientId := op.ClientId, SeqNumber := op.SeqNumber }

/-- struct RequestInfo: a pending-registry entry; `failCh` is the failure
channel's identifier. -/
structure RequestInfo : Type where
  requestId : RequestId
  failCh : Nat
deriving DecidableEq

/-- The mutable state of struct KVServer relevant to the claims: the Store
(`state`), the dedup table, the result cache (`valueTable`) and the
Pending Registry (`pendingRequests`), plus the server index `me`. -/
structure KVServer : Type where
  me : Nat
  state : List (String × String)
  dedupTable : List (Int × Int)
  valueTable : List (Int × String)
  pendingRequests : List (Nat × RequestInfo)
deriving DecidableEq

/-- StartKVServer initialises all four maps empty. -/
def StartKVServer (me : Nat) : KVServer :=
  { me := me, state := [], dedupTable := [], valueTable := [], pendingRequests := [] }

/-- struct raft.ApplyMsg, restricted to the fields the executor reads. -/
structure ApplyMsg : Type where
  CommandValid : Bool
  Command : Op
  CommandIndex : Nat
  TermChanged : Bool
deriving DecidableEq

/-- func (kv *KVServer) ShouldStartCommand. The Go signature writes through
pointers `err *Err, value *string`; here `wantValue` says whether the value
pointer is non-nil (Get passes a pointer, PutAppend passes nil), and the
result is (return value, what was written to *err, what was written to
*value), `none` meaning the pointee was left untouched. -/
def ShouldStartCommand (kv : KVServer) (clientId : Int) (newSeq : Int)
    (wantValue : Bool) : Bool × Option Err × Option String :=
  match lookupk clientId kv.dedupTable with
  | some seq =>
    if newSeq = seq then
      (false, some Err.OK, if wantValue then some (lookupS clientId kv.valueTable) else none)
    else if newSeq < seq then
      (false, some Err.ErrStaleRequest, none)
    else
      (true, none, none)
  | none => (true, none, none)

/-- The non-duplicate path of ApplyOperation (everything after the dedup
check): apply the command to the Store, record the sequence number and the
result. -/
def applyNew (kv : KVServer) (op : Op) : KVServer × String :=
  let pair : List (String × String) × String :=
    match op.Kind with
    | OpKind.PutOp => (setk op.Key op.Value kv.state, "")
    | OpKind.AppendOp => (setk op.Key ((lookupS op.Key kv.state) ++ op.Value) kv.state, "")
    | OpKind.GetOp => (kv.state, lookupS op.Key kv.state)
  ({ kv with
      state := pair.1,
      dedupTable := setk op.ClientId op.SeqNumber kv.dedupTable,
      valueTable := setk op.ClientId pair.2 kv.valueTable }, pair.2)

/-- func (kv *KVServer) ApplyOperation: if the dedup table already maps the
client to this sequence number, return the cached result; otherwise apply
to the Store and record. Returns the new server state and the result
string. -/
def ApplyOperation (kv : KVServer) (op : Op) : KVServer × String :=
  match lookupk op.ClientId kv.dedupTable with
  | some seq =>
    if op.SeqNumber = seq then
      (kv, lookupS op.ClientId kv.valueTable)
    else
      applyNew kv op
  | none => applyNew kv op

/-- func (kv *KVServer) RecordRequestAtIndex. -/
def RecordRequestAtIndex (kv : KVServer) (index : Nat) (id : RequestId)
    (failCh : Nat) : KVServer :=
  { kv with pendingRequests := setk index { requestId := id, failCh := failCh } kv.pendingRequests }

/-- The outcome of the three-way select in Get/PutAppend: which of the
failure channel, the completion channel and the timeout fired first. -/
inductive WaitOutcome : Type
  | failSignal : WaitOutcome
  | completion : String → WaitOutcome
  | timeout : WaitOutcome
deriving DecidableEq

/-- func (kv *KVServer) Get. `index` and `isLeader` are what kv.rf.Start
returned, `failCh` identifies the fresh failure channel, and `outcome` is
which select arm fired. Result: (server state, reply.Err, reply.Value). -/
def GetRPC (kv : KVServer) (key : String) (clientId : Int) (seq : Int)
    (index : Nat) (isLeader : Bool) (failCh : Nat) (outcome : WaitOutcome) :
    KVServer × Err × String :=
  let check := ShouldStartCommand kv clientId seq true
  if check.1 = false then
    (kv, (check.2.1).getD Err.OK, (check.2.2).getD "")
  else if isLeader then
    let kv1 := RecordRequestAtIndex kv index { ClientId := clientId, SeqNumber := seq } failCh
    match outcome with
    | WaitOutcome.failSignal => (kv1, Err.ErrLostLeadership, "")
    | WaitOutcome.completion result => (kv1, Err.OK, result)
    | WaitOutcome.timeout => (kv1, Err.ErrTimeOut, "")
  else
    (kv, Err.ErrWrongLeader, "")

/-- func (kv *KVServer) PutAppend, analogous to GetRPC but with no value
pointer and no reply value. Result: (server state, reply.Err). -/
def PutAppendRPC (kv : KVServer) (key : String) (value : String) (kind : OpKind)
    (clientId : Int) (seq : Int) (index : Nat) (isLeader : Bool) (failCh : Nat)
    (outcome : WaitOutcome) : KVServer × Err :=
  let check := ShouldStartCommand kv clientId seq false
  if check.1 = false then
    (kv, (check.2.1).getD Err.OK)
  else if isLeader then
    let kv1 := RecordRequestAtIndex kv index { ClientId := clientId, SeqNumber := seq } failCh
    match outcome with
    | WaitOutcome.failSignal => (kv1, Err.ErrLostLeadership)
    | WaitOutcome.completion result => (kv1, Err.OK)
    | WaitOutcome.timeout => (kv1, Err.ErrTimeOut)
  else
    (kv, Err.ErrWrongLeader)

/-- func (kv *KVServer) FailAllPendingRequests: send on every pending
entry's failure channel and delete every entry. Returns the new state and
the list of failure channels signalled. -/
def FailAllPendingRequests (kv : KVServer) : KVServer × List Nat :=
  ({ kv with pendingRequests := [] },
   kv.pendingRequests.map (fun e => e.2.failCh))

/-- func (kv *KVServer) FailConflictPendingRequests: if an entry is pending
at the committed index with a different RequestId, signal its failure
channel; delete the entry at that index unconditionally. -/
def FailConflictPendingRequests (kv : KVServer) (cmd : ApplyMsg) : KVServer × List Nat :=
  let op := cmd.Command
  let sigs : List Nat :=
    match lookupk cmd.CommandIndex kv.pendingRequests with
    | some info => if info.requestId ≠ op.requestId then [info.failCh] else []
    | none => []
  ({ kv with pendingRequests := erasek cmd.CommandIndex kv.pendingRequests }, sigs)

/-- The observable effect of one iteration of OperationExecutor on one
commit-stream message: the new server state, the failure channels
signalled, and the completion-channel delivery performed (channel
identifier and result), if any. -/
structure StepResult : Type where
  kv : KVServer
  failSignals : List Nat
  notify : Option (Nat × String)
deriving DecidableEq

/-- One iteration of func (kv *KVServer) OperationExecutor on a message
from applyCh: TermChanged fails all pending requests; an invalid command
is skipped; a valid command resolves conflicts at its index, is applied,
and is delivered to the completion channel only when it originated on this
server and the channel reference is live. -/
def ExecutorStep (kv : KVServer) (cmd : ApplyMsg) : StepResult :=
  if cmd.TermChanged then
    let r := FailAllPendingRequests kv
    { kv := r.1, failSignals := r.2, notify := none }
  else if cmd.CommandValid = false then
    { kv := kv, failSignals := [], notify := none }
  else
    let op := cmd.Command
    let r1 := FailConflictPendingRequests kv cmd
    let r2 := ApplyOperation r1.1 op
    let notify : Option (Nat × String) :=
      match op.ToClientCh with
      | some ch => if op.From = kv.me then some (ch, r2.2) else none
      | none => none
    { kv := r2.1, failSignals := r1.2, notify := notify }

/-- Fold ApplyOperation over a list of committed commands (the apply loop
restricted to valid commands). -/
def applyAll (kv : KVServer) : List Op → KVServer
  | [] => kv
  | op :: rest => applyAll (ApplyOperation kv op).1 rest

/-- Whether op hits the duplicate branch of ApplyOperation in state kv. -/
def isDup (kv : KVServer) (op : Op) : Bool :=
  decide (lookupk op.ClientId kv.dedupTable = some op.SeqNumber)

/-- The per-client non-decreasing arrival condition at the apply stage
(spec section 3: sequence numbers observed at commit time are
non-decreasing per client): each command's sequence number is at least the
dedup table's current entry for its client, at the point it is applied. -/
def AdmissibleB (kv : KVServer) : List Op → Bool
  | [] => true
  | op :: rest =>
    (match lookupk op.ClientId kv.dedupTable with
     | some s => decide (s ≤ op.SeqNumber)
     | none => true)
    && AdmissibleB (ApplyOperation kv op).1 rest

/-- How many commands of a run take the non-duplicate branch of
ApplyOperation (hence touch the Store) while carrying RequestId r. -/
def applyCount (kv : KVServer) (r : RequestId) : List Op → Nat
  | [] => 0
  | op :: rest =>
    (if op.requestId = r ∧ isDup kv op = false then 1 else 0)
    + applyCount (ApplyOperation kv op).1 r rest

/-- The retry-free core of a run: drop every command that hits the
duplicate branch at its position. -/
def stripDups (kv : KVServer) : List Op → List Op
  | [] => []
  | op :: rest =>
    if isDup kv op then stripDups kv rest
    else op :: stripDups (ApplyOperation kv op).1 rest

/-- Sample command: client 7, sequence 3, Put of value x under key k. -/
def opPut1 : Op :=
  { Key := "k", Value := "x", Kind := OpKind.PutOp, ToClientCh := some 1,
    From := 0, ClientId := 7, SeqNumber := 3 }

/-- Sample command: client 7, sequence 4, Append of value y under key k. -/
def opPut2 : Op :=
  { Key := "k", Value := "y", Kind := OpKind.AppendOp, ToClientCh := some 2,
    From := 0, ClientId := 7, SeqNumber := 4 }

/-- Sample command: client 8, sequence 1, Append of value z under absent key q. -/
def opApp1 : Op :=
  { Key := "q", Value := "z", Kind := OpKind.AppendOp, ToClientCh := none,
    From := 0, ClientId := 8, SeqNumber := 1 }

/-- Sample command: client 9, sequence 1, Get of key k. -/
def opGet1 : Op :=
  { Key := "k", Value := "", Kind := OpKind.GetOp, ToClientCh := some 3,
    From := 0, ClientId := 9, SeqNumber := 1 }

/-- A fresh server with index 0. -/
def kv0 : KVServer := StartKVServer 0

/-- The fresh server after applying opPut1 once. -/
def kvA : KVServer := (ApplyOperation kv0 opPut1).1

/-- kvA with a pending entry at index 5 for client 7, sequence 3,
failure channel 9. -/
def kvP : KVServer := RecordRequestAtIndex kvA 5 (RequestId.mk 7 3) 9

/-- A commit of a conflicting command (client 8) at index 5. -/
def cmdConflict : ApplyMsg :=
  { CommandValid := true, Command := opApp1, CommandIndex := 5, TermChanged := false }

/-- A TermChanged message on the commit stream. -/
def cmdTerm : ApplyMsg :=
  { CommandValid := false, Command := opApp1, CommandIndex := 0, TermChanged := true }

/-- A valid commit of opPut1 at index 1. -/
def cmdPut1 : ApplyMsg :=
  { CommandValid := true, Command := opPut1, CommandIndex := 1, TermChanged := false }

/-- Sample key and value strings used by the witnesses. -/
def keyK : String := "k"

/-- Sample value string used by the witnesses. -/
def valX : String := "x"

section MapLemmas

variable {α β : Type} [DecidableEq α]

theorem lookupk_setk_self (k : α) (v : β) (m : List (α × β)) :
    lookupk k (setk k v m) = some v := by
  induction m with
  | nil => simp [setk, lookupk]
  | cons hd tl ih =>
    by_cases h : k = hd.1
    · simp [setk, lookupk, h]
    · simp [setk, lookupk, h, ih]

theorem lookupk_setk_ne (k k' : α) (v : β) (m : List (α × β)) (h : k ≠ k') :
    lookupk k (setk k' v m) = lookupk k m := by
  induction m with
  | nil => simp [setk, lookupk, h]
  | cons hd tl ih =>
    by_cases h1 : k' = hd.1
    · subst h1
      simp [setk, lookupk, h, ih]
    · by_cases h2 : k = hd.1
      · simp [setk, lookupk, h1, h2]
      · simp [setk, lookupk, h1, h2, ih]

theorem lookupk_erasek_self (k : α) (m : List (α × β)) :
    lookupk k (erasek k m) = none := by
  induction m with
  | nil => simp [erasek, lookupk]
  | cons hd tl ih =>
    by_cases h : k = hd.1
    · simpa [erasek, h] using ih
    · simp [erasek, lookupk, h, ih]

theorem lookupk_erasek_ne (k k' : α) (m : List (α × β)) (h : k ≠ k') :
    lookupk k (erasek k' m) = lookupk k m := by
  induction m with
  | nil => simp [erasek, lookupk]
  | cons hd tl ih =>
    by_cases h1 : k' = hd.1
    · subst h1
      simp [erasek, lookupk, h, ih]
    · by_cases h2 : k = hd.1
      · simp [erasek, lookupk, h1, h2]
      · simp [erasek, lookupk, h1, h2, ih]

end MapLemmas

theorem lookupS_eq_of_lookupk {α : Type} [DecidableEq α] (k : α)
    (m : List (α × String)) (v : String) (h : lookupk k m = some v) :
    lookupS k m = v := by
  unfold lookupS
  rw [h]

theorem isDup_iff (kv : KVServer) (op : Op) :
    isDup kv op = true ↔ lookupk op.ClientId kv.dedupTable = some op.SeqNumber := by
  simp [isDup]

theorem isDup_false_iff (kv : KVServer) (op : Op) :
    isDup kv op = false ↔ lookupk op.ClientId kv.dedupTable ≠ some op.SeqNumber := by
  simp [isDup]

theorem ApplyOperation_dup (kv : KVServer) (op : Op) (h : isDup kv op = true) :
    ApplyOperation kv op = (kv, lookupS op.ClientId kv.valueTable) := by
  rw [isDup_iff] at h
  unfold ApplyOperation
  rw [h]
  simp

theorem ApplyOperation_not_dup (kv : KVServer) (op : Op) (h : isDup kv op = false) :
    ApplyOperation kv op = applyNew kv op := by
  rw [isDup_false_iff] at h
  unfold ApplyOperation
  cases hl : lookupk op.ClientId kv.dedupTable with
  | none => rfl
  | some s =>
    have hne : op.SeqNumber ≠ s := by
      intro e
      apply h
      rw [hl, e]
    simp [hne]

theorem applyNew_dedupTable (kv : KVServer) (op : Op) :
    (applyNew kv op).1.dedupTable = setk op.ClientId op.SeqNumber kv.dedupTable := by
  cases h : op.Kind <;> simp [applyNew, h]

theorem applyNew_valueTable (kv : KVServer) (op : Op) :
    (applyNew kv op).1.valueTable = setk op.ClientId (applyNew kv op).2 kv.valueTable := by
  cases h : op.Kind <;> simp [applyNew, h]

theorem applyNew_me (kv : KVServer) (op : Op) : (applyNew kv op).1.me = kv.me := by
  cases h : op.Kind <;> simp [applyNew, h]

theorem applyNew_pending (kv : KVServer) (op : Op) :
    (applyNew kv op).1.pendingRequests = kv.pendingRequests := by
  cases h : op.Kind <;> simp [applyNew, h]

theorem applyNew_state (kv : KVServer) (op : Op) :
    (applyNew kv op).1.state =
      (match op.Kind with
       | OpKind.PutOp => setk op.Key op.Value kv.state
       | OpKind.AppendOp => setk op.Key ((lookupS op.Key kv.state) ++ op.Value) kv.state
       | OpKind.GetOp => kv.state) := by
  cases h : op.Kind <;> simp [applyNew, h]

theorem applyNew_result (kv : KVServer) (op : Op) :
    (applyNew kv op).2 =
      (match op.Kind with
       | OpKind.PutOp => ""
       | OpKind.AppendOp => ""
       | OpKind.GetOp => lookupS op.Key kv.state) := by
  cases h : op.Kind <;> simp [applyNew, h]

theorem dedup_self_after (kv : KVServer) (op : Op) :
    lookupk op.ClientId (ApplyOperation kv op).1.dedupTable = some op.SeqNumber := by
  cases h : isDup kv op with
  | true =>
    rw [ApplyOperation_dup kv op h]
    exact (isDup_iff kv op).mp h
  | false =>
    rw [ApplyOperation_not_dup kv op h, applyNew_dedupTable]
    exact lookupk_setk_self op.ClientId op.SeqNumber kv.dedupTable

theorem dedup_other_after (kv : KVServer) (op : Op) (c : Int) (h : c ≠ op.ClientId) :
    lookupk c (ApplyOperation kv op).1.dedupTable = lookupk c kv.dedupTable := by
  cases hd : isDup kv op with
  | true => rw [ApplyOperation_dup kv op hd]
  | false =>
    rw [ApplyOperation_not_dup kv op hd, applyNew_dedupTable]
    exact lookupk_setk_ne c op.ClientId op.SeqNumber kv.dedupTable h

theorem value_other_after (kv : KVServer) (op : Op) (c : Int) (h : c ≠ op.ClientId) :
    lookupk c (ApplyOperation kv op).1.valueTable = lookupk c kv.valueTable := by
  cases hd : isDup kv op with
  | true => rw [ApplyOperation_dup kv op hd]
  | false =>
    rw [ApplyOperation_not_dup kv op hd, applyNew_valueTable]
    exact lookupk_setk_ne c op.ClientId (applyNew kv op).2 kv.valueTable h

theorem value_self_after_not_dup (kv : KVServer) (op : Op) (h : isDup kv op = false) :
    lookupk op.ClientId (ApplyOperation kv op).1.valueTable = some (ApplyOperation kv op).2 := by
  rw [ApplyOperation_not_dup kv op h, applyNew_valueTable]
  exact lookupk_setk_self op.ClientId (applyNew kv op).2 kv.valueTable

theorem admissible_cons (kv : KVServer) (op : Op) (rest : List Op) :
    AdmissibleB kv (op :: rest) = true ↔
      (∀ t, lookupk op.ClientId kv.dedupTable = some t → t ≤ op.SeqNumber) ∧
        AdmissibleB (ApplyOperation kv op).1 rest = true := by
  have hstep : AdmissibleB kv (op :: rest) =
      ((match lookupk op.ClientId kv.dedupTable with
        | some s => decide (s ≤ op.SeqNumber)
        | none => true)
       && AdmissibleB (ApplyOperation kv op).1 rest) := rfl
  rw [hstep, Bool.and_eq_true]
  cases hl : lookupk op.ClientId kv.dedupTable with
  | none => simp
  | some s => simp

theorem admissible_append_left (xs : List Op) :
    ∀ (kv : KVServer) (ys : List Op), AdmissibleB kv (xs ++ ys) = true →
      AdmissibleB kv xs = true := by
  induction xs with
  | nil => intro kv ys _; rfl
  | cons op rest ih =>
    intro kv ys h
    rw [List.cons_append, admissible_cons] at h
    rw [admissible_cons]
    exact ⟨h.1, ih (ApplyOperation kv op).1 ys h.2⟩

theorem dedup_mono_step (kv : KVServer) (op : Op) (c s : Int)
    (hadm : ∀ t, lookupk op.ClientId kv.dedupTable = some t → t ≤ op.SeqNumber)
    (h : lookupk c kv.dedupTable = some s) :
    ∃ s2, lookupk c (ApplyOperation kv op).1.dedupTable = some s2 ∧ s ≤ s2 := by
  by_cases hc : c = op.ClientId
  · subst hc
    exact ⟨op.SeqNumber, dedup_self_after kv op, hadm s h⟩
  · exact ⟨s, by rw [dedup_other_after kv op c hc]; exact h, le_refl s⟩

theorem dedup_mono_list (ops : List Op) :
    ∀ (kv : KVServer) (c s : Int), AdmissibleB kv ops = true →
      lookupk c kv.dedupTable = some s →
      ∃ s2, lookupk c (applyAll kv ops).dedupTable = some s2 ∧ s ≤ s2 := by
  induction ops with
  | nil =>
    intro kv c s _ h
    exact ⟨s, h, le_refl s⟩
  | cons op rest ih =>
    intro kv c s hadm h
    rw [admissible_cons] at hadm
    obtain ⟨s1, h1, hle1⟩ := dedup_mono_step kv op c s hadm.1 h
    obtain ⟨s2, h2, hle2⟩ := ih (ApplyOperation kv op).1 c s1 hadm.2 h1
    exact ⟨s2, h2, le_trans hle1 hle2⟩

theorem applyCount_zero (ops : List Op) :
    ∀ (kv : KVServer) (c n m : Int), AdmissibleB kv ops = true →
      lookupk c kv.dedupTable = some m → n ≤ m →
      applyCount kv (RequestId.mk c n) ops = 0 := by
  induction ops with
  | nil => intro kv c n m _ _ _; rfl
  | cons op rest ih =>
    intro kv c n m hadm hl hnm
    rw [admissible_cons] at hadm
    unfold applyCount
    have hif : ¬ (op.requestId = RequestId.mk c n ∧ isDup kv op = false) := by
      rintro ⟨hid, hnd⟩
      have hcc : op.ClientId = c := congrArg RequestId.ClientId hid
      have hss : op.SeqNumber = n := congrArg RequestId.SeqNumber hid
      have hml : lookupk op.ClientId kv.dedupTable = some m := by rw [hcc]; exact hl
      have hle : m ≤ op.SeqNumber := hadm.1 m hml
      have hmn : m = n := le_antisymm (hss ▸ hle) hnm
      have : isDup kv op = true := by
        rw [isDup_iff, hml, hmn, hss]
      rw [this] at hnd
      exact Bool.noConfusion hnd
    rw [if_neg hif, Nat.zero_add]
    by_cases hc : c = op.ClientId
    · subst hc
      have hml2 : lookupk op.ClientId (ApplyOperation kv op).1.dedupTable = some op.SeqNumber :=
        dedup_self_after kv op
      have hle : m ≤ op.SeqNumber := hadm.1 m hl
      exact ih (ApplyOperation kv op).1 op.ClientId n op.SeqNumber hadm.2 hml2
        (le_trans hnm hle)
    · have hml2 : lookupk c (ApplyOperation kv op).1.dedupTable = some m := by
        rw [dedup_other_after kv op c hc]
        exact hl
      exact ih (ApplyOperation kv op).1 c n m hadm.2 hml2 hnm

theorem applyCount_le_one (ops : List Op) :
    ∀ (kv : KVServer) (r : RequestId), AdmissibleB kv ops = true →
      applyCount kv r ops ≤ 1 := by
  induction ops with
  | nil => intro kv r _; exact Nat.zero_le 1
  | cons op rest ih =>
    intro kv r hadm
    rw [admissible_cons] at hadm
    unfold applyCount
    by_cases hif : op.requestId = r ∧ isDup kv op = false
    · rw [if_pos hif]
      have hml : lookupk r.ClientId (ApplyOperation kv op).1.dedupTable = some r.SeqNumber := by
        have hda := dedup_self_after kv op
        have hcc : op.ClientId = r.ClientId := congrArg RequestId.ClientId hif.1
        have hss : op.SeqNumber = r.SeqNumber := congrArg RequestId.SeqNumber hif.1
        rw [hcc, hss] at hda
        exact hda
      have hzero : applyCount (ApplyOperation kv op).1 (RequestId.mk r.ClientId r.SeqNumber) rest = 0 :=
        applyCount_zero rest (ApplyOperation kv op).1 r.ClientId r.SeqNumber r.SeqNumber
          hadm.2 hml (le_refl r.SeqNumber)
      have hr : RequestId.mk r.ClientId r.SeqNumber = r := rfl
      rw [hr] at hzero
      rw [hzero]
    · rw [if_neg hif, Nat.zero_add]
      exact ih (ApplyOperation kv op).1 r hadm.2

theorem ApplyOperation_dup_fst (kv : KVServer) (op : Op) (h : isDup kv op = true) :
    (ApplyOperation kv op).1 = kv := by
  rw [ApplyOperation_dup kv op h]

theorem applyAll_cons (kv : KVServer) (op : Op) (rest : List Op) :
    applyAll kv (op :: rest) = applyAll (ApplyOperation kv op).1 rest := rfl

theorem stripDups_cons (kv : KVServer) (op : Op) (rest : List Op) :
    stripDups kv (op :: rest) =
      if isDup kv op then stripDups kv rest
      else op :: stripDups (ApplyOperation kv op).1 rest := rfl

theorem stripDups_applyAll (ops : List Op) :
    ∀ (kv : KVServer), applyAll kv ops = applyAll kv (stripDups kv ops) := by
  induction ops with
  | nil => intro kv; rfl
  | cons op rest ih =>
    intro kv
    cases hd : isDup kv op with
    | true =>
      have h1 : applyAll kv (op :: rest) = applyAll kv rest := by
        rw [applyAll_cons, ApplyOperation_dup_fst kv op hd]
      have h2 : stripDups kv (op :: rest) = stripDups kv rest := by
        rw [stripDups_cons, hd]
        simp
      rw [h1, h2]
      exact ih kv
    | false =>
      have h1 : applyAll kv (op :: rest) = applyAll (ApplyOperation kv op).1 rest := rfl
      have h2 : stripDups kv (op :: rest) =
          op :: stripDups (ApplyOperation kv op).1 rest := by
        rw [stripDups_cons, hd]
        simp
      rw [h1, h2]
      have h3 : applyAll kv (op :: stripDups (ApplyOperation kv op).1 rest) =
          applyAll (ApplyOperation kv op).1 (stripDups (ApplyOperation kv op).1 rest) := rfl
      rw [h3]
      exact ih (ApplyOperation kv op).1

theorem requestId_notin_stripDups (ops : List Op) :
    ∀ (kv : KVServer) (c n m : Int), AdmissibleB kv ops = true →
      lookupk c kv.dedupTable = some m → n ≤ m →
      RequestId.mk c n ∉ (stripDups kv ops).map Op.requestId := by
  induction ops with
  | nil =>
    intro kv c n m _ _ _ h
    simp [stripDups] at h
  | cons op rest ih =>
    intro kv c n m hadm hl hnm
    rw [admissible_cons] at hadm
    cases hd : isDup kv op with
    | true =>
      have h2 : stripDups kv (op :: rest) = stripDups kv rest := by
        rw [stripDups_cons, hd]
        simp
      rw [h2]
      have hkv : (ApplyOperation kv op).1 = kv := ApplyOperation_dup_fst kv op hd
      have hrest : AdmissibleB kv rest = true := by
        rw [← hkv]
        exact hadm.2
      exact ih kv c n m hrest hl hnm
    | false =>
      have h2 : stripDups kv (op :: rest) =
          op :: stripDups (ApplyOperation kv op).1 rest := by
        rw [stripDups_cons, hd]
        simp
      rw [h2]
      intro hmem
      rw [List.map_cons, List.mem_cons] at hmem
      cases hmem with
      | inl hid =>
        have hcc : op.ClientId = c := congrArg RequestId.ClientId hid.symm
        have hss : op.SeqNumber = n := congrArg RequestId.SeqNumber hid.symm
        have hml : lookupk op.ClientId kv.dedupTable = some m := by rw [hcc]; exact hl
        have hle : m ≤ op.SeqNumber := hadm.1 m hml
        have hmn : m = n := le_antisymm (hss ▸ hle) hnm
        have hdt : isDup kv op = true := by
          rw [isDup_iff, hml, hmn, hss]
        rw [hdt] at hd
        exact Bool.noConfusion hd
      | inr hmem2 =>
        by_cases hc : c = op.ClientId
        · subst hc
          have hml2 : lookupk op.ClientId (ApplyOperation kv op).1.dedupTable =
              some op.SeqNumber := dedup_self_after kv op
          have hle : m ≤ op.SeqNumber := hadm.1 m hl
          exact ih (ApplyOperation kv op).1 op.ClientId n op.SeqNumber hadm.2 hml2
            (le_trans hnm hle) hmem2
        · have hml2 : lookupk c (ApplyOperation kv op).1.dedupTable = some m := by
            rw [dedup_other_after kv op c hc]
            exact hl
          exact ih (ApplyOperation kv op).1 c n m hadm.2 hml2 hnm hmem2

theorem stripDups_nodup (ops : List Op) :
    ∀ (kv : KVServer), AdmissibleB kv ops = true →
      ((stripDups kv ops).map Op.requestId).Nodup := by
  induction ops with
  | nil => intro kv _; simp [stripDups]
  | cons op rest ih =>
    intro kv hadm
    rw [admissible_cons] at hadm
    cases hd : isDup kv op with
    | true =>
      have h2 : stripDups kv (op :: rest) = stripDups kv rest := by
        rw [stripDups_cons, hd]
        simp
      rw [h2]
      have hkv : (ApplyOperation kv op).1 = kv := ApplyOperation_dup_fst kv op hd
      have hrest : AdmissibleB kv rest = true := by
        rw [← hkv]
        exact hadm.2
      exact ih kv hrest
    | false =>
      have h2 : stripDups kv (op :: rest) =
          op :: stripDups (ApplyOperation kv op).1 rest := by
        rw [stripDups_cons, hd]
        simp
      rw [h2, List.map_cons, List.nodup_cons]
      constructor
      · have hml : lookupk op.ClientId (ApplyOperation kv op).1.dedupTable =
            some op.SeqNumber := dedup_self_after kv op
        have hni := requestId_notin_stripDups rest (ApplyOperation kv op).1
          op.ClientId op.SeqNumber op.SeqNumber hadm.2 hml (le_refl op.SeqNumber)
        exact hni
      · exact ih (ApplyOperation kv op).1 hadm.2

theorem admissible_last_bound (ops : List Op) :
    ∀ (kv : KVServer) (g : Op), AdmissibleB kv (ops ++ [g]) = true →
      ∀ s, lookupk g.ClientId (applyAll kv ops).dedupTable = some s → s ≤ g.SeqNumber := by
  induction ops with
  | nil =>
    intro kv g hadm s hl
    rw [List.nil_append, admissible_cons] at hadm
    exact hadm.1 s hl
  | cons op rest ih =>
    intro kv g hadm s hl
    rw [List.cons_append, admissible_cons] at hadm
    exact ih (ApplyOperation kv op).1 g hadm.2 s hl

theorem cached_preserved (ops : List Op) :
    ∀ (kv : KVServer) (g : Op), AdmissibleB kv (ops ++ [g]) = true →
      lookupk g.ClientId kv.dedupTable = some g.SeqNumber →
      lookupk g.ClientId (applyAll kv ops).dedupTable = some g.SeqNumber ∧
        lookupk g.ClientId (applyAll kv ops).valueTable = lookupk g.ClientId kv.valueTable := by
  induction ops with
  | nil =>
    intro kv g _ hdedup
    exact ⟨hdedup, rfl⟩
  | cons op rest ih =>
    intro kv g hadm hdedup
    rw [List.cons_append, admissible_cons] at hadm
    rw [applyAll_cons]
    by_cases hc : op.ClientId = g.ClientId
    · cases hd : isDup kv op with
      | true =>
        have hkv : (ApplyOperation kv op).1 = kv := ApplyOperation_dup_fst kv op hd
        rw [hkv]
        rw [hkv] at hadm
        exact ih kv g hadm.2 hdedup
      | false =>
        exfalso
        have hlg : lookupk op.ClientId kv.dedupTable = some g.SeqNumber := by
          rw [hc]
          exact hdedup
        have hne : lookupk op.ClientId kv.dedupTable ≠ some op.SeqNumber :=
          (isDup_false_iff kv op).mp hd
        have hlt : g.SeqNumber < op.SeqNumber := by
          have hle : g.SeqNumber ≤ op.SeqNumber := hadm.1 g.SeqNumber hlg
          rcases lt_or_eq_of_le hle with h | h
          · exact h
          · exfalso
            apply hne
            rw [hlg, h]
        have hself : lookupk g.ClientId (ApplyOperation kv op).1.dedupTable =
            some op.SeqNumber := by
          rw [← hc]
          exact dedup_self_after kv op
        have hrest : AdmissibleB (ApplyOperation kv op).1 rest = true :=
          admissible_append_left rest (ApplyOperation kv op).1 [g] hadm.2
        obtain ⟨s2, hs2, hle2⟩ :=
          dedup_mono_list rest (ApplyOperation kv op).1 g.ClientId op.SeqNumber hrest hself
        have hbound : s2 ≤ g.SeqNumber :=
          admissible_last_bound rest (ApplyOperation kv op).1 g hadm.2 s2 hs2
        omega
    · have hcg : g.ClientId ≠ op.ClientId := fun h => hc h.symm
      have hd1 : lookupk g.ClientId (ApplyOperation kv op).1.dedupTable =
          some g.SeqNumber := by
        rw [dedup_other_after kv op g.ClientId hcg]
        exact hdedup
      have hv1 : lookupk g.ClientId (ApplyOperation kv op).1.valueTable =
          lookupk g.ClientId kv.valueTable :=
        value_other_after kv op g.ClientId hcg
      obtain ⟨hfin1, hfin2⟩ := ih (ApplyOperation kv op).1 g hadm.2 hd1
      exact ⟨hfin1, by rw [hfin2, hv1]⟩

theorem domInv_step (kv : KVServer) (op : Op)
    (hinv : ∀ c, (lookupk c kv.dedupTable).isSome = true →
      (lookupk c kv.valueTable).isSome = true) :
    ∀ c, (lookupk c (ApplyOperation kv op).1.dedupTable).isSome = true →
      (lookupk c (ApplyOperation kv op).1.valueTable).isSome = true := by
  intro c hsome
  cases hd : isDup kv op with
  | true =>
    have hkv : (ApplyOperation kv op).1 = kv := ApplyOperation_dup_fst kv op hd
    rw [hkv] at hsome ⊢
    exact hinv c hsome
  | false =>
    by_cases hc : c = op.ClientId
    · subst hc
      rw [value_self_after_not_dup kv op hd]
      rfl
    · rw [value_other_after kv op c hc]
      rw [dedup_other_after kv op c hc] at hsome
      exact hinv c hsome

theorem domInv_applyAll (ops : List Op) :
    ∀ (kv : KVServer),
      (∀ c, (lookupk c kv.dedupTable).isSome = true →
        (lookupk c kv.valueTable).isSome = true) →
      ∀ c, (lookupk c (applyAll kv ops).dedupTable).isSome = true →
        (lookupk c (applyAll kv ops).valueTable).isSome = true := by
  induction ops with
  | nil => intro kv hinv c h; exact hinv c h
  | cons op rest ih =>
    intro kv hinv c h
    rw [applyAll_cons] at h ⊢
    exact ih (ApplyOperation kv op).1 (domInv_step kv op hinv) c h

/-- Claim C1: the Applier write path is at-most-once. If the dedup table
already maps the command's client to its sequence number, ApplyOperation
returns the cached result and leaves the whole server state (Store, dedup
table, result cache) unchanged; otherwise it applies the command to the
Store and then sets lastSeq to the sequence number and lastResult to the
value read (Get) or the empty string (Put/Append). Consequently, in any
run whose per-client sequence numbers are non-decreasing at the apply
stage, each RequestId takes the Store-mutating branch at most once. -/
theorem applyOperation_at_most_once (kv : KVServer) (op : Op) (ops : List Op)
    (r : RequestId) :
    (isDup kv op = true →
      ApplyOperation kv op = (kv, lookupS op.ClientId kv.valueTable))
    ∧ (isDup kv op = false →
        (ApplyOperation kv op).1.dedupTable = setk op.ClientId op.SeqNumber kv.dedupTable
        ∧ (ApplyOperation kv op).1.valueTable =
            setk op.ClientId (ApplyOperation kv op).2 kv.valueTable
        ∧ (ApplyOperation kv op).2 =
            (match op.Kind with
             | OpKind.PutOp => ""
             | OpKind.AppendOp => ""
             | OpKind.GetOp => lookupS op.Key kv.state)
        ∧ (ApplyOperation kv op).1.state =
            (match op.Kind with
             | OpKind.PutOp => setk op.Key op.Value kv.state
             | OpKind.AppendOp => setk op.Key ((lookupS op.Key kv.state) ++ op.Value) kv.state
             | OpKind.GetOp => kv.state))
    ∧ (AdmissibleB kv ops = true → applyCount kv r ops ≤ 1) := by
  refine ⟨ApplyOperation_dup kv op, ?_, applyCount_le_one ops kv r⟩
  intro h
  rw [ApplyOperation_not_dup kv op h]
  exact ⟨applyNew_dedupTable kv op, applyNew_valueTable kv op,
    applyNew_result kv op, applyNew_state kv op⟩

/-- Witness for claim C1: after Put k x by client 7 at sequence 3, a
re-commit of the same command is a duplicate and returns the cached
result with the state untouched; a run with a duplicated command has
apply count at most one for that RequestId. -/
theorem applyOperation_at_most_once_witness :
    isDup kvA opPut1 = true
    ∧ ApplyOperation kvA opPut1 = (kvA, lookupS opPut1.ClientId kvA.valueTable)
    ∧ AdmissibleB kv0 [opPut1, opPut1, opPut2] = true
    ∧ applyCount kv0 opPut1.requestId [opPut1, opPut1, opPut2] ≤ 1 :=
  ⟨by decide,
   (applyOperation_at_most_once kvA opPut1 [] opPut1.requestId).1 (by decide),
   by decide,
   (applyOperation_at_most_once kv0 opPut1 [opPut1, opPut1, opPut2]
     opPut1.requestId).2.2 (by decide)⟩

/-- Claim C2: the early-dedup read path. For a client absent from the
dedup table, ShouldStartCommand returns true; for a present client with
last sequence s, a new sequence equal to s returns false with OK and, if
the value pointer is supplied, the cached result; a smaller sequence
returns false with ErrStaleRequest; a larger one returns true. -/
theorem shouldStartCommand_cases (kv : KVServer) (c n : Int) (wantValue : Bool) :
    (lookupk c kv.dedupTable = none →
      ShouldStartCommand kv c n wantValue = (true, none, none))
    ∧ (∀ s, lookupk c kv.dedupTable = some s →
        ((n = s → ShouldStartCommand kv c n wantValue =
            (false, some Err.OK,
             if wantValue then some (lookupS c kv.valueTable) else none))
         ∧ (n < s → ShouldStartCommand kv c n wantValue =
              (false, some Err.ErrStaleRequest, none))
         ∧ (s < n → ShouldStartCommand kv c n wantValue = (true, none, none)))) := by
  constructor
  · intro h
    unfold ShouldStartCommand
    rw [h]
  · intro s hs
    refine ⟨?_, ?_, ?_⟩
    · intro hn
      unfold ShouldStartCommand
      rw [hs]
      simp [hn]
    · intro hn
      unfold ShouldStartCommand
      rw [hs]
      have hne : ¬ n = s := ne_of_lt hn
      simp [hne, hn]
    · intro hn
      unfold ShouldStartCommand
      rw [hs]
      have hne : ¬ n = s := ne_of_gt hn
      have hnl : ¬ n < s := not_lt_of_gt hn
      simp [hne, hnl]

/-- Witness for claim C2: with client 7 recorded at sequence 3, a repeat
of sequence 3 short-circuits with OK and the cached value, sequence 2 is
stale, sequence 4 proceeds. -/
theorem shouldStartCommand_cases_witness :
    lookupk 7 kvA.dedupTable = some 3
    ∧ ShouldStartCommand kvA 7 3 true =
        (false, some Err.OK, if true then some (lookupS 7 kvA.valueTable) else none)
    ∧ ShouldStartCommand kvA 7 2 false = (false, some Err.ErrStaleRequest, none)
    ∧ ShouldStartCommand kvA 7 4 true = (true, none, none) :=
  ⟨by decide,
   ((shouldStartCommand_cases kvA 7 3 true).2 3 (by decide)).1 rfl,
   ((shouldStartCommand_cases kvA 7 2 false).2 3 (by decide)).2.1 (by decide),
   ((shouldStartCommand_cases kvA 7 4 true).2 3 (by decide)).2.2 (by decide)⟩

/-- Claim C3: Store semantics of an applied (non-duplicate) command. Put
sets the key to the value; Append sets the key to the old value (empty
if absent) concatenated with the new suffix, so Append to an absent key
equals Put of the suffix; Get returns the stored value (empty string if
the key is absent) and never changes the Store. -/
theorem store_semantics (kv : KVServer) (op : Op) (h : isDup kv op = false) :
    (op.Kind = OpKind.PutOp →
      (ApplyOperation kv op).1.state = setk op.Key op.Value kv.state)
    ∧ (op.Kind = OpKind.AppendOp →
        (ApplyOperation kv op).1.state =
          setk op.Key ((lookupS op.Key kv.state) ++ op.Value) kv.state
        ∧ (lookupk op.Key kv.state = none →
            (ApplyOperation kv op).1.state = setk op.Key op.Value kv.state))
    ∧ (op.Kind = OpKind.GetOp →
        (ApplyOperation kv op).2 = lookupS op.Key kv.state
        ∧ (ApplyOperation kv op).1.state = kv.state
        ∧ (lookupk op.Key kv.state = none → (ApplyOperation kv op).2 = "")) := by
  rw [ApplyOperation_not_dup kv op h]
  refine ⟨?_, ?_, ?_⟩
  · intro hk
    rw [applyNew_state kv op, hk]
  · intro hk
    constructor
    · rw [applyNew_state kv op, hk]
    · intro hnone
      rw [applyNew_state kv op, hk]
      have hS : lookupS op.Key kv.state = "" := by
        unfold lookupS
        rw [hnone]
      rw [hS, String.empty_append]
  · intro hk
    refine ⟨?_, ?_, ?_⟩
    · rw [applyNew_result kv op, hk]
    · rw [applyNew_state kv op, hk]
    · intro hnone
      rw [applyNew_result kv op, hk]
      unfold lookupS
      rw [hnone]

/-- Witness for claim C3: Append of z to the absent key q on a fresh
server stores exactly z under q. -/
theorem store_semantics_witness :
    isDup kv0 opApp1 = false
    ∧ opApp1.Kind = OpKind.AppendOp
    ∧ lookupk opApp1.Key kv0.state = none
    ∧ (ApplyOperation kv0 opApp1).1.state = setk opApp1.Key opApp1.Value kv0.state :=
  ⟨by decide, rfl, by decide,
   ((store_semantics kv0 opApp1 (by decide)).2.1 rfl).2 (by decide)⟩

/-- Claim C4: RPC outcome mapping. For a Get or PutAppend that passes the
early-dedup check: when Start reports non-leader the reply is
ErrWrongLeader and the server state (hence the Pending Registry) is
untouched; when it is leader, the pending entry is registered at the
returned index and the reply is determined by which event fires: failure
channel gives ErrLostLeadership, completion channel gives OK (with the
delivered value for Get), timeout gives ErrTimeOut. -/
theorem rpc_outcome_mapping (kv : KVServer) (key value : String) (kind : OpKind)
    (c n : Int) (index failCh : Nat) (v : String) :
    ((ShouldStartCommand kv c n true).1 = true →
      (∀ outcome, GetRPC kv key c n index false failCh outcome =
        (kv, Err.ErrWrongLeader, ""))
      ∧ (∀ outcome, (GetRPC kv key c n index true failCh outcome).1 =
          RecordRequestAtIndex kv index (RequestId.mk c n) failCh)
      ∧ (GetRPC kv key c n index true failCh WaitOutcome.failSignal).2.1 =
          Err.ErrLostLeadership
      ∧ (GetRPC kv key c n index true failCh (WaitOutcome.completion v)).2 = (Err.OK, v)
      ∧ (GetRPC kv key c n index true failCh WaitOutcome.timeout).2.1 = Err.ErrTimeOut)
    ∧ ((ShouldStartCommand kv c n false).1 = true →
      (∀ outcome, PutAppendRPC kv key value kind c n index false failCh outcome =
        (kv, Err.ErrWrongLeader))
      ∧ (∀ outcome, (PutAppendRPC kv key value kind c n index true failCh outcome).1 =
          RecordRequestAtIndex kv index (RequestId.mk c n) failCh)
      ∧ (PutAppendRPC kv key value kind c n index true failCh WaitOutcome.failSignal).2 =
          Err.ErrLostLeadership
      ∧ (PutAppendRPC kv key value kind c n index true failCh (WaitOutcome.completion v)).2 =
          Err.OK
      ∧ (PutAppendRPC kv key value kind c n index true failCh WaitOutcome.timeout).2 =
          Err.ErrTimeOut) := by
  constructor
  · intro hg
    refine ⟨?_, ?_, ?_, ?_, ?_⟩
    · intro outcome
      simp [GetRPC, hg]
    · intro outcome
      cases outcome <;> simp [GetRPC, hg, RecordRequestAtIndex]
    · simp [GetRPC, hg]
    · simp [GetRPC, hg]
    · simp [GetRPC, hg]
  · intro hp
    refine ⟨?_, ?_, ?_, ?_, ?_⟩
    · intro outcome
      simp [PutAppendRPC, hp]
    · intro outcome
      cases outcome <;> simp [PutAppendRPC, hp, RecordRequestAtIndex]
    · simp [PutAppendRPC, hp]
    · simp [PutAppendRPC, hp]
    · simp [PutAppendRPC, hp]

/-- Witness for claim C4: a fresh Get from client 5 at sequence 1 gets
ErrWrongLeader with no registration on a non-leader, and OK with the
delivered value, ErrLostLeadership, or ErrTimeOut on a leader depending
on which event fires. -/
theorem rpc_outcome_mapping_witness :
    (ShouldStartCommand kv0 5 1 true).1 = true
    ∧ GetRPC kv0 keyK 5 1 2 false 4 WaitOutcome.timeout = (kv0, Err.ErrWrongLeader, "")
    ∧ (GetRPC kv0 keyK 5 1 2 true 4 (WaitOutcome.completion valX)).2 = (Err.OK, valX)
    ∧ (GetRPC kv0 keyK 5 1 2 true 4 WaitOutcome.failSignal).2.1 = Err.ErrLostLeadership
    ∧ (GetRPC kv0 keyK 5 1 2 true 4 WaitOutcome.timeout).2.1 = Err.ErrTimeOut :=
  ⟨by decide,
   ((rpc_outcome_mapping kv0 keyK valX OpKind.PutOp 5 1 2 4 valX).1 (by decide)).1
     WaitOutcome.timeout,
   ((rpc_outcome_mapping kv0 keyK valX OpKind.PutOp 5 1 2 4 valX).1 (by decide)).2.2.2.1,
   ((rpc_outcome_mapping kv0 keyK valX OpKind.PutOp 5 1 2 4 valX).1 (by decide)).2.2.1,
   ((rpc_outcome_mapping kv0 keyK valX OpKind.PutOp 5 1 2 4 valX).1 (by decide)).2.2.2.2⟩

/-- Claim C5: conflict resolution at commit. For a committed command at
index i, if a pending entry exists at i its failure channel is signalled
exactly when its RequestId differs from the committed command's; the
entry at i is removed in every case, other indices are untouched, and
the Store and both dedup maps are untouched. -/
theorem conflict_resolution (kv : KVServer) (cmd : ApplyMsg) :
    (∀ info, lookupk cmd.CommandIndex kv.pendingRequests = some info →
      (FailConflictPendingRequests kv cmd).2 =
        (if info.requestId ≠ cmd.Command.requestId then [info.failCh] else []))
    ∧ (lookupk cmd.CommandIndex kv.pendingRequests = none →
        (FailConflictPendingRequests kv cmd).2 = [])
    ∧ lookupk cmd.CommandIndex (FailConflictPendingRequests kv cmd).1.pendingRequests = none
    ∧ (∀ j, j ≠ cmd.CommandIndex →
        lookupk j (FailConflictPendingRequests kv cmd).1.pendingRequests =
          lookupk j kv.pendingRequests)
    ∧ (FailConflictPendingRequests kv cmd).1.state = kv.state
    ∧ (FailConflictPendingRequests kv cmd).1.dedupTable = kv.dedupTable
    ∧ (FailConflictPendingRequests kv cmd).1.valueTable = kv.valueTable := by
  refine ⟨?_, ?_, ?_, ?_, rfl, rfl, rfl⟩
  · intro info hinfo
    simp [FailConflictPendingRequests, hinfo]
  · intro hnone
    simp [FailConflictPendingRequests, hnone]
  · simp [FailConflictPendingRequests]
    exact lookupk_erasek_self cmd.CommandIndex kv.pendingRequests
  · intro j hj
    simp [FailConflictPendingRequests]
    exact lookupk_erasek_ne j cmd.CommandIndex kv.pendingRequests hj

/-- Witness for claim C5: a pending entry for client 7 at index 5 is
failed and removed when a conflicting command of client 8 commits at
index 5. -/
theorem conflict_resolution_witness :
    lookupk cmdConflict.CommandIndex kvP.pendingRequests =
      some (RequestInfo.mk (RequestId.mk 7 3) 9)
    ∧ (FailConflictPendingRequests kvP cmdConflict).2 =
        (if (RequestInfo.mk (RequestId.mk 7 3) 9).requestId ≠ cmdConflict.Command.requestId
         then [(RequestInfo.mk (RequestId.mk 7 3) 9).failCh] else [])
    ∧ lookupk cmdConflict.CommandIndex
        (FailConflictPendingRequests kvP cmdConflict).1.pendingRequests = none :=
  ⟨by decide,
   (conflict_resolution kvP cmdConflict).1 (RequestInfo.mk (RequestId.mk 7 3) 9) (by decide),
   (conflict_resolution kvP cmdConflict).2.2.1⟩

/-- Claim C6: on a TermChanged message the executor signals the failure
channel of every pending entry, clears the registry, delivers nothing to
any completion channel, and leaves the Store, dedup table and result
cache unchanged. -/
theorem term_changed_fails_all (kv : KVServer) (cmd : ApplyMsg)
    (h : cmd.TermChanged = true) :
    ExecutorStep kv cmd =
      { kv := { kv with pendingRequests := [] },
        failSignals := kv.pendingRequests.map (fun e => e.2.failCh),
        notify := none } := by
  simp [ExecutorStep, h, FailAllPendingRequests]

/-- Witness for claim C6: a TermChanged message empties the registry of
the server that has a pending entry at index 5 and signals channel 9. -/
theorem term_changed_fails_all_witness :
    cmdTerm.TermChanged = true
    ∧ ExecutorStep kvP cmdTerm =
        { kv := { kvP with pendingRequests := [] },
          failSignals := kvP.pendingRequests.map (fun e => e.2.failCh),
          notify := none } :=
  ⟨rfl, term_changed_fails_all kvP cmdTerm rfl⟩

/-- Claim C7: monotonic dedup. Under the per-client non-decreasing arrival
precondition at the apply stage, the dedup table entry of every client is
non-decreasing across any sequence of ApplyOperation calls. -/
theorem monotonic_dedup (kv : KVServer) (ops : List Op) (c s : Int)
    (hadm : AdmissibleB kv ops = true)
    (h : lookupk c kv.dedupTable = some s) :
    ∃ s2, lookupk c (applyAll kv ops).dedupTable = some s2 ∧ s ≤ s2 :=
  dedup_mono_list ops kv c s hadm h

/-- Witness for claim C7: client 7 recorded at sequence 3 moves to a
sequence at least 3 after an admissible run. -/
theorem monotonic_dedup_witness :
    AdmissibleB kvA [opPut2] = true
    ∧ lookupk 7 kvA.dedupTable = some 3
    ∧ ∃ s2, lookupk 7 (applyAll kvA [opPut2]).dedupTable = some s2 ∧ 3 ≤ s2 :=
  ⟨by decide, by decide, monotonic_dedup kvA [opPut2] 7 3 (by decide) (by decide)⟩

/-- Claim C8: retry idempotence. Applying a run equals applying its
retry-free core (the commands that take the non-duplicate branch), so
re-commits never change the resulting Store; under the per-client
non-decreasing precondition the retry-free core carries pairwise distinct
RequestIds; and a Get, re-applied after any admissible interleaving that
ends with its re-commit, returns the same value it returned when first
applied. -/
theorem retry_idempotence (kv : KVServer) (ops : List Op) (g : Op) :
    applyAll kv ops = applyAll kv (stripDups kv ops)
    ∧ (AdmissibleB kv ops = true → ((stripDups kv ops).map Op.requestId).Nodup)
    ∧ (g.Kind = OpKind.GetOp → isDup kv g = false →
        AdmissibleB (ApplyOperation kv g).1 (ops ++ [g]) = true →
        (ApplyOperation (applyAll (ApplyOperation kv g).1 ops) g).2 =
          (ApplyOperation kv g).2) := by
  refine ⟨stripDups_applyAll ops kv, stripDups_nodup ops kv, ?_⟩
  intro _ hnd hadm
  have hd1 : lookupk g.ClientId (ApplyOperation kv g).1.dedupTable = some g.SeqNumber :=
    dedup_self_after kv g
  have hv1 : lookupk g.ClientId (ApplyOperation kv g).1.valueTable =
      some (ApplyOperation kv g).2 := value_self_after_not_dup kv g hnd
  obtain ⟨hfd, hfv⟩ := cached_preserved ops (ApplyOperation kv g).1 g hadm hd1
  have hdupf : isDup (applyAll (ApplyOperation kv g).1 ops) g = true :=
    (isDup_iff (applyAll (ApplyOperation kv g).1 ops) g).mpr hfd
  rw [ApplyOperation_dup (applyAll (ApplyOperation kv g).1 ops) g hdupf]
  have hlv : lookupk g.ClientId (applyAll (ApplyOperation kv g).1 ops).valueTable =
      some (ApplyOperation kv g).2 := by
    rw [hfv]
    exact hv1
  exact lookupS_eq_of_lookupk g.ClientId
    (applyAll (ApplyOperation kv g).1 ops).valueTable (ApplyOperation kv g).2 hlv

/-- Witness for claim C8: a run of a duplicate Put and a fresh Append
equals its stripped core, the core has distinct RequestIds, and a retried
Get by client 9 returns the value it first returned. -/
theorem retry_idempotence_witness :
    applyAll kvA [opPut1, opPut2] = applyAll kvA (stripDups kvA [opPut1, opPut2])
    ∧ AdmissibleB kvA [opPut1, opPut2] = true
    ∧ ((stripDups kvA [opPut1, opPut2]).map Op.requestId).Nodup
    ∧ opGet1.Kind = OpKind.GetOp
    ∧ isDup kvA opGet1 = false
    ∧ AdmissibleB (ApplyOperation kvA opGet1).1 ([opGet1] ++ [opGet1]) = true
    ∧ (ApplyOperation (applyAll (ApplyOperation kvA opGet1).1 [opGet1]) opGet1).2 =
        (ApplyOperation kvA opGet1).2 :=
  ⟨(retry_idempotence kvA [opPut1, opPut2] opGet1).1,
   by decide,
   (retry_idempotence kvA [opPut1, opPut2] opGet1).2.1 (by decide),
   rfl, by decide, by decide,
   (retry_idempotence kvA [opGet1] opGet1).2.2 rfl (by decide) (by decide)⟩

/-- Claim C9: reply routing and restart safety. On a valid committed
command, the executor delivers the result to the completion channel
exactly when the command's origin server equals this server and the
channel reference is live; in particular a nil channel reference (the
restart-replay case) or a foreign origin suppresses the notification. -/
theorem reply_routing (kv : KVServer) (cmd : ApplyMsg)
    (h1 : cmd.TermChanged = false) (h2 : cmd.CommandValid = true) :
    ((ExecutorStep kv cmd).notify ≠ none →
      cmd.Command.From = kv.me ∧ cmd.Command.ToClientCh ≠ none)
    ∧ (cmd.Command.ToClientCh = none → (ExecutorStep kv cmd).notify = none)
    ∧ (cmd.Command.From ≠ kv.me → (ExecutorStep kv cmd).notify = none)
    ∧ (∀ ch, cmd.Command.ToClientCh = some ch → cmd.Command.From = kv.me →
        (ExecutorStep kv cmd).notify =
          some (ch, (ApplyOperation (FailConflictPendingRequests kv cmd).1 cmd.Command).2)) := by
  have hstep : (ExecutorStep kv cmd).notify =
      (match cmd.Command.ToClientCh with
       | some ch =>
         if cmd.Command.From = kv.me then
           some (ch, (ApplyOperation (FailConflictPendingRequests kv cmd).1 cmd.Command).2)
         else none
       | none => none) := by
    cases cmd with
    | mk valid command index term =>
      simp only at h1 h2
      subst h1
      subst h2
      rfl
  refine ⟨?_, ?_, ?_, ?_⟩
  · intro hne
    rw [hstep] at hne
    cases hc : cmd.Command.ToClientCh with
    | none =>
      rw [hc] at hne
      simp at hne
    | some ch =>
      rw [hc] at hne
      by_cases hf : cmd.Command.From = kv.me
      · exact ⟨hf, by simp⟩
      · simp [hf] at hne
  · intro hc
    rw [hstep, hc]
  · intro hf
    rw [hstep]
    cases hc : cmd.Command.ToClientCh with
    | none => rfl
    | some ch => simp [hf]
  · intro ch hc hf
    rw [hstep, hc]
    simp [hf]

/-- Witness for claim C9: a locally originated command with a live channel
reference is delivered on that channel. -/
theorem reply_routing_witness :
    cmdPut1.TermChanged = false
    ∧ cmdPut1.CommandValid = true
    ∧ cmdPut1.Command.ToClientCh = some 1
    ∧ cmdPut1.Command.From = kv0.me
    ∧ (ExecutorStep kv0 cmdPut1).notify =
        some (1, (ApplyOperation (FailConflictPendingRequests kv0 cmdPut1).1 cmdPut1.Command).2) :=
  ⟨rfl, rfl, rfl, rfl, (reply_routing kv0 cmdPut1 rfl rfl).2.2.2 1 rfl rfl⟩

/-- Claim C10: dedup-table/value-table domain invariant. Starting from the
empty tables of a fresh server, after any sequence of ApplyOperation
calls every client present in the dedup table is also present in the
result cache, so the cached-result lookups of the duplicate branches find
a defined string. -/
theorem dedup_value_domain (me : Nat) (ops : List Op) (c : Int)
    (h : (lookupk c (applyAll (StartKVServer me) ops).dedupTable).isSome = true) :
    (lookupk c (applyAll (StartKVServer me) ops).valueTable).isSome = true := by
  refine domInv_applyAll ops (StartKVServer me) ?_ c h
  intro c2 hc2
  simp [StartKVServer, lookupk] at hc2

/-- Witness for claim C10: after one Put by client 7 the client is in both
tables. -/
theorem dedup_value_domain_witness :
    (lookupk 7 (applyAll (StartKVServer 0) [opPut1]).dedupTable).isSome = true
    ∧ (lookupk 7 (applyAll (StartKVServer 0) [opPut1]).valueTable).isSome = true :=
  ⟨by decide, dedup_value_domain 0 [opPut1] 7 (by decide)⟩

end KVRaft
